import Mathlib

/-!
Verification of the Notion → Google Tasks syncer (`src/main.py`) against its
natural-language specification.

The program is shallowly embedded: strings are `List Char`, the Google Task
object is a record, and the calls the program issues to the external services
are collected in explicit traces.  Semantics of the external client-library
methods (`mark_completed`, `mark_incomplete`, `update`, the query filter
evaluation and the per-record sync of `SyncGTasks`) are not part of the
repository; where a claim depends on them they are modelled from the spec's
contracts, and the corresponding definitions say so in their doc comments.
-/

namespace Syncer

/-- Whitespace as matched by the `\s` class of the regular expression in
`extract_notion_id` (`main.py` line 54).  The pattern is a `str`, so
CPython's `\s` is the Unicode-aware class `Py_UNICODE_ISSPACE`: U+0009-000D
(tab, LF, VT, FF, CR), U+001C-001F (file/group/record/unit separator),
U+0020 (space), U+0085 (next line), U+00A0 (no-break space), U+1680 (ogham
space mark), U+2000-200A (en quad through hair space), U+2028 (line
separator), U+2029 (paragraph separator), U+202F (narrow no-break space),
U+205F (medium mathematical space) and U+3000 (ideographic space). -/
def isWS (c : Char) : Bool :=
  decide ((0x9 ≤ c.toNat ∧ c.toNat ≤ 0xd)
    ∨ (0x1c ≤ c.toNat ∧ c.toNat ≤ 0x1f)
    ∨ c.toNat = 0x20 ∨ c.toNat = 0x85 ∨ c.toNat = 0xa0 ∨ c.toNat = 0x1680
    ∨ (0x2000 ≤ c.toNat ∧ c.toNat ≤ 0x200a)
    ∨ c.toNat = 0x2028 ∨ c.toNat = 0x2029 ∨ c.toNat = 0x202f
    ∨ c.toNat = 0x205f ∨ c.toNat = 0x3000)

/-- A Google Task as the program sees it: a title, a free-text notes field
(absent or a string), and a completion timestamp that is absent iff the task
is not completed (`main.py` line 67: "gtask.completed is None if the task is
not completed"). -/
structure GTask where
  title : List Char
  notes : Option (List Char)
  completed : Option Nat
  deriving DecidableEq, Repr

/-- The literal label searched for by `extract_notion_id`'s regular
expression `Notion ID:\s*(\S+)` (`main.py` line 54). -/
def notionLabel : List Char := "Notion ID:".toList

/-- Core of `extract_notion_id` (`main.py` lines 53-57): the semantics of
`re.search(r'Notion ID:\s*(\S+)', s)`.  Starting positions are tried left to
right; at a position the pattern matches iff the literal label is a prefix of
the remaining text and, after greedily skipping whitespace, at least one
non-whitespace character follows; the captured group is the maximal
non-whitespace run there. -/
def extractFrom : List Char → Option (List Char)
  | [] => none
  | c :: rest =>
    if notionLabel.isPrefixOf (c :: rest) then
      let after := (c :: rest).drop notionLabel.length
      let tok := (after.dropWhile isWS).takeWhile (fun ch => !isWS ch)
      if tok = [] then extractFrom rest else some tok
    else extractFrom rest

/-- `extract_notion_id` (`main.py` lines 47-57): guard `if gtask.notes:`
(false for an absent and for an empty notes field), then the regex search. -/
def extract_notion_id (gtask : GTask) : Option (List Char) :=
  match gtask.notes with
  | none => none
  | some s => if s = [] then none else extractFrom s

/-- The calls `update_google_task_status` can issue on the Google Task object
of the external client library. -/
inductive GCall where
  | markCompleted
  | markIncomplete
  | update
  deriving DecidableEq, Repr

/-- `update_google_task_status` (`main.py` lines 60-75).  The branch
structure is from the source: `gtask_is_done = gtask.completed is not None`;
`mark_completed` iff `notion_done and not gtask_is_done`; `mark_incomplete`
iff `(not notion_done) and gtask_is_done`; `gtask.update()` unconditionally
afterwards.  Semantics of the external methods are modelled from the spec's
Status Reconciler contract: `mark_completed` sets the completion timestamp
(and changes nothing else), `mark_incomplete` clears it (and changes nothing
else), `update` persists the task's state and changes no field.  The result
is the task's final state paired with the trace of issued calls. -/
def update_google_task_status (gtask : GTask) (notion_done : Bool) :
    GTask × List GCall :=
  let gtask_is_done := gtask.completed.isSome
  if notion_done && !gtask_is_done then
    ({ gtask with completed := some 1 }, [GCall.markCompleted, GCall.update])
  else if !notion_done && gtask_is_done then
    ({ gtask with completed := none }, [GCall.markIncomplete, GCall.update])
  else
    (gtask, [GCall.update])

/-- The token `re.search(r'Notion ID:\s*(\S+)', s)` would capture if the
pattern were anchored at position `i` of `s`: drop the label, greedily skip
whitespace, take the maximal non-whitespace run. -/
def tokAt (s : List Char) (i : Nat) : List Char :=
  ((s.drop (i + notionLabel.length)).dropWhile isWS).takeWhile (fun ch => !isWS ch)

/-- The regex pattern of `extract_notion_id` matches at position `i` of `s`:
the literal label starts there and a non-empty token follows. -/
def matchAt (s : List Char) (i : Nat) : Bool :=
  notionLabel.isPrefixOf (s.drop i) && !(tokAt s i).isEmpty

/-- A record of the Notion source database as the program reads it: a title,
the categorical `Status` field, the `For Later` and `Dump It` checkbox
flags, the "Done!" completion boolean, the due date and the stable unique
identifier. -/
structure SourceRecord where
  title : List Char
  status : List Char
  forLater : Bool
  dumpIt : Bool
  done : Bool
  due : Option Nat
  id : List Char
  deriving DecidableEq, Repr

/-- `status_filter` (`main.py` line 106):
`uno.prop('Status').has_value('Organized')`, evaluated on a record. -/
def status_filter (r : SourceRecord) : Bool := r.status == "Organized".toList

/-- `for_later_filter` (`main.py` line 107): `uno.prop('For Later') == False`. -/
def for_later_filter (r : SourceRecord) : Bool := r.forLater == false

/-- `dump_it_filter` (`main.py` line 108): `uno.prop('Dump It') == False`. -/
def dump_it_filter (r : SourceRecord) : Bool := r.dumpIt == false

/-- `combined_filter` (`main.py` line 111):
`status_filter & for_later_filter & dump_it_filter`. -/
def combined_filter (r : SourceRecord) : Bool :=
  status_filter r && for_later_filter r && dump_it_filter r

/-- The Notion database as the Orchestrator reads it: the `is_empty` flag
(`main.py` line 94 — the program's signal that the database holds nothing /
could not be loaded), the option names of the `Status` column, and the
records of the collection. -/
structure NotionDB where
  isEmpty : Bool
  statusOptions : List (List Char)
  records : List SourceRecord

/-- The database identifier extracted from the URL (`main.py` line 40). -/
def DATABASE_ID : List Char := "110f4691b8df8196963fd95c0a64682f".toList

/-- The message printed when the database is empty / cannot be loaded
(`main.py` line 95). -/
def couldNotLoadMsg : List Char :=
  "Could not load the Notion database with ID: ".toList
    ++ DATABASE_ID ++ ".".toList

/-- The notes text a created task carries, per the program's convention
(`main.py` docstring and lines 50-52): `"Notion ID: <the_id>"`. -/
def mkBackRefNotes (id : List Char) : List Char := "Notion ID: ".toList ++ id

/-- An identifier compatible with the back-reference scheme: non-empty and
free of whitespace (Notion identifiers are hexadecimal strings). -/
def validId (id : List Char) : Prop := id ≠ [] ∧ ∀ c ∈ id, isWS c = false

instance (id : List Char) : Decidable (validId id) := by
  unfold validId; infer_instance

/-- Modelled from the spec: the TargetTask the external `SyncGTasks` adapter
(configured at `main.py` lines 131-141) creates for a source record — the
title copied and the notes carrying the back-reference annotation, with
completion absent (spec §4.4 and end-to-end scenario A). -/
def newTask (r : SourceRecord) : GTask :=
  { title := r.title, notes := some (mkBackRefNotes r.id), completed := none }

/-- The task carries `id` as its back-reference. -/
def hasNotionId (t : GTask) (id : List Char) : Bool :=
  extract_notion_id t == some id

/-- Modelled from the spec: locate the existing task carrying `id` (the
first one in list order) and invoke the Status Reconciler on it; all other
tasks are untouched (spec §4.4 (c)). -/
def reconcileFirst : List GTask → List Char → Bool → List GTask
  | [], _, _ => []
  | t :: ts, id, d =>
    if hasNotionId t id then (update_google_task_status t d).1 :: ts
    else t :: reconcileFirst ts id d

/-- Modelled from the spec: the per-record create-or-update decision of the
external `SyncGTasks` adapter (spec §4.4 (c)): if some existing task carries
the record's identifier, reconcile it with the record's "Done!" boolean and
create nothing; otherwise append a new task carrying the back-reference.
Returns the updated task list and the number of tasks created (0 or 1). -/
def processRecord (tasks : List GTask) (r : SourceRecord) :
    List GTask × Nat :=
  if (tasks.find? (fun t => hasNotionId t r.id)).isSome then
    (reconcileFirst tasks r.id r.done, 0)
  else
    (tasks ++ [newTask r], 1)

/-- Modelled from the spec: process the filtered query results in result
order (spec §5: "query → per-record processing in result order"), threading
the task list and summing the number of created tasks. -/
def processRecords : List GTask → List SourceRecord → List GTask × Nat
  | tasks, [] => (tasks, 0)
  | tasks, r :: rs =>
    ((processRecords (processRecord tasks r).1 rs).1,
      (processRecord tasks r).2 + (processRecords (processRecord tasks r).1 rs).2)

/-- `sync_inbox_to_gtasks` (`main.py` lines 82-146) over the embedded state.
The control structure is from the source, in the source's execution order:
if `inbox_db.is_empty`, print the message and return (lines 94-96); the
`next(...)` over the Status options (line 98) raises when no option is named
`Organized`; the lookups `status_col.type.options['Done']` and `['Backlog']`
(lines 135-136) raise when those options are absent; otherwise the filtered
query results are processed per record (the processing itself is the
external `SyncGTasks` adapter, modelled from the spec in `processRecord`).
Every modelled error precedes any task mutation.  `Except.error` is an
exception propagating to the caller; `Except.ok` carries the resulting task
list, the number of created tasks, and the printed log lines. -/
def sync_inbox_to_gtasks (db : NotionDB) (tasks : List GTask) :
    Except (List Char) (List GTask × Nat × List (List Char)) :=
  if db.isEmpty then
    Except.ok (tasks, 0, [couldNotLoadMsg])
  else if "Organized".toList ∉ db.statusOptions then
    Except.error "StopIteration: no Status option named Organized".toList
  else if "Done".toList ∉ db.statusOptions
      ∨ "Backlog".toList ∉ db.statusOptions then
    Except.error "KeyError: Status options Done/Backlog missing".toList
  else
    Except.ok
      ((processRecords tasks (db.records.filter combined_filter)).1,
       (processRecords tasks (db.records.filter combined_filter)).2,
       ["Sync complete.".toList])

/-- The target-service task list after one Orchestrator invocation.  When
the invocation raises, no task was created or mutated (every modelled error
precedes any mutation in the source's execution order), so the list is
unchanged. -/
def syncTasks (db : NotionDB) (tasks : List GTask) : List GTask :=
  match sync_inbox_to_gtasks db tasks with
  | Except.ok (t, _, _) => t
  | Except.error _ => tasks

/-- The number of tasks created by one Orchestrator invocation. -/
def syncCreated (db : NotionDB) (tasks : List GTask) : Nat :=
  match sync_inbox_to_gtasks db tasks with
  | Except.ok (_, n, _) => n
  | Except.error _ => 0

/-- Observable events of one iteration of the scheduling loop
(`main.py` lines 156-161). -/
inductive LoopEvent where
  | invokeSync
  | logError (msg : List Char)
  | sleep (seconds : Nat)
  deriving DecidableEq, Repr

/-- The poll interval constant `SYNC_INTERVAL` (`main.py` line 153). -/
def SYNC_INTERVAL : Nat := 60

/-- One iteration of the `while True` loop (`main.py` lines 156-161), given
the outcome of the Orchestrator invocation: invoke `sync_inbox_to_gtasks`;
when it raises, catch the exception and log it (the `except` clause makes
the body total — its result is a plain event list, with no error case to
propagate); then sleep the fixed interval. -/
def loopIteration (outcome : Except (List Char) Unit) : List LoopEvent :=
  LoopEvent.invokeSync ::
    (match outcome with
     | Except.error e => [LoopEvent.logError e]
     | Except.ok _ => [])
    ++ [LoopEvent.sleep SYNC_INTERVAL]

/-- The events of the first `n` iterations of the scheduling loop, given the
stream of invocation outcomes.  Defined for every `n`: the loop has no exit. -/
def loopEvents (outcomes : Nat → Except (List Char) Unit) : Nat → List LoopEvent
  | 0 => []
  | n + 1 => loopEvents outcomes n ++ loopIteration (outcomes n)

/-- The number of tasks in `ts` carrying `j` as their back-reference. -/
def countId (ts : List GTask) (j : List Char) : Nat :=
  (ts.filter (fun t => hasNotionId t j)).length

lemma matchAt_nil (i : Nat) : matchAt [] i = false := by
  simp only [matchAt, tokAt, List.drop_nil]
  decide

lemma tokAt_cons (c : Char) (s : List Char) (i : Nat) :
    tokAt (c :: s) (i + 1) = tokAt s i := by
  unfold tokAt
  rw [show i + 1 + notionLabel.length = (i + notionLabel.length) + 1 from
    Nat.add_right_comm i 1 _, List.drop_succ_cons]

lemma matchAt_cons (c : Char) (s : List Char) (i : Nat) :
    matchAt (c :: s) (i + 1) = matchAt s i := by
  unfold matchAt
  rw [List.drop_succ_cons, tokAt_cons]

/-- `extractFrom` on a non-empty string: return the token at position 0 when
the pattern matches there, otherwise recurse one position to the right. -/
lemma extractFrom_cons (c : Char) (rest : List Char) :
    extractFrom (c :: rest) =
      if matchAt (c :: rest) 0 = true then some (tokAt (c :: rest) 0)
      else extractFrom rest := by
  simp only [extractFrom, matchAt, tokAt, Nat.zero_add, Bool.and_eq_true,
    Bool.not_eq_true', List.isEmpty_eq_false, List.isEmpty_iff]
  by_cases hp : notionLabel.isPrefixOf (c :: rest) = true
  · by_cases ht :
      (((c :: rest).drop notionLabel.length).dropWhile isWS).takeWhile
        (fun ch => !isWS ch) = []
    · simp [hp, ht]
    · simp [hp, ht]
  · simp [hp]

/-- If the pattern matches nowhere in `s`, `extractFrom` returns `none`. -/
lemma extractFrom_of_no_match :
    ∀ s : List Char, (∀ i, matchAt s i = false) → extractFrom s = none := by
  intro s
  induction s with
  | nil => intro _; rfl
  | cons c rest ih =>
    intro h
    rw [extractFrom_cons, h 0, if_neg (by simp)]
    exact ih fun i => by rw [← matchAt_cons c rest i]; exact h (i + 1)

/-- If `i` is the leftmost position where the pattern matches, `extractFrom`
returns the token captured there — the semantics of `re.search`. -/
lemma extractFrom_of_first_match :
    ∀ (s : List Char) (i : Nat), matchAt s i = true →
      (∀ j, j < i → matchAt s j = false) →
      extractFrom s = some (tokAt s i) := by
  intro s
  induction s with
  | nil => intro i hm _; rw [matchAt_nil] at hm; exact absurd hm (by simp)
  | cons c rest ih =>
    intro i hm hfirst
    match i with
    | 0 => rw [extractFrom_cons, if_pos hm]
    | i + 1 =>
      rw [extractFrom_cons, if_neg (by simp [hfirst 0 (Nat.succ_pos i)]),
        tokAt_cons]
      rw [matchAt_cons] at hm
      exact ih i hm fun j hj => by
        rw [← matchAt_cons c rest j]
        exact hfirst (j + 1) (Nat.succ_lt_succ hj)

/-- On a string decomposed as `pre ++ label ++ ws ++ tok ++ rest` — `ws` all
whitespace, `tok` a non-empty run of non-whitespace ended by the end of the
string or a whitespace character — the token captured at position
`pre.length` is exactly `tok`. -/
lemma tokAt_decomp (pre ws tok rest : List Char)
    (hws : ∀ c ∈ ws, isWS c = true) (hne : tok ≠ [])
    (htok : ∀ c ∈ tok, isWS c = false)
    (hrest : rest = [] ∨ ∃ d rest', rest = d :: rest' ∧ isWS d = true) :
    tokAt (pre ++ notionLabel ++ ws ++ tok ++ rest) pre.length = tok := by
  unfold tokAt
  have hdrop : (pre ++ notionLabel ++ ws ++ tok ++ rest).drop
      (pre.length + notionLabel.length) = ws ++ tok ++ rest := by
    rw [show pre ++ notionLabel ++ ws ++ tok ++ rest
        = (pre ++ notionLabel) ++ (ws ++ tok ++ rest) by
      simp [List.append_assoc]]
    rw [show pre.length + notionLabel.length = (pre ++ notionLabel).length by
      simp [List.length_append]]
    exact List.drop_left _ _
  rw [hdrop]
  have h1 : (ws ++ (tok ++ rest)).dropWhile isWS = tok ++ rest := by
    rw [List.dropWhile_append, List.dropWhile_eq_nil_iff.mpr hws]
    cases tok with
    | nil => exact absurd rfl hne
    | cons t ts => simp [List.dropWhile_cons, htok t (by simp)]
  rw [show ws ++ tok ++ rest = ws ++ (tok ++ rest) by rw [List.append_assoc],
    h1]
  rw [List.takeWhile_append,
    List.takeWhile_eq_self_iff.mpr (fun c hc => by simp [htok c hc]),
    if_pos rfl]
  rcases hrest with h | ⟨d, rest', hr, hd⟩
  · simp [h]
  · simp [hr, List.takeWhile_cons, hd]

/-- Under the decomposition of `tokAt_decomp` the regex pattern matches at
position `pre.length`. -/
lemma matchAt_decomp (pre ws tok rest : List Char)
    (hws : ∀ c ∈ ws, isWS c = true) (hne : tok ≠ [])
    (htok : ∀ c ∈ tok, isWS c = false)
    (hrest : rest = [] ∨ ∃ d rest', rest = d :: rest' ∧ isWS d = true) :
    matchAt (pre ++ notionLabel ++ ws ++ tok ++ rest) pre.length = true := by
  unfold matchAt
  rw [Bool.and_eq_true]
  constructor
  · rw [List.isPrefixOf_iff_prefix,
      show (pre ++ notionLabel ++ ws ++ tok ++ rest).drop pre.length
        = notionLabel ++ (ws ++ (tok ++ rest)) by
        rw [show pre ++ notionLabel ++ ws ++ tok ++ rest
            = pre ++ (notionLabel ++ (ws ++ (tok ++ rest))) by
          simp [List.append_assoc]]
        exact List.drop_left _ _]
    exact List.prefix_append _ _
  · rw [tokAt_decomp pre ws tok rest hws hne htok hrest]
    simp [List.isEmpty_iff, hne]

/-- **C3.** For every notes string containing the literal label `Notion ID:`
followed by optional whitespace and a contiguous non-whitespace token, the
extractor returns exactly that token (first pattern occurrence wins); for
every notes string not containing the label at all, it returns `none` rather
than failing. -/
theorem extract_notion_id_first_token :
    (∀ (g : GTask) (pre ws tok rest : List Char),
      g.notes = some (pre ++ notionLabel ++ ws ++ tok ++ rest) →
      (∀ c ∈ ws, isWS c = true) →
      tok ≠ [] →
      (∀ c ∈ tok, isWS c = false) →
      (rest = [] ∨ ∃ d rest', rest = d :: rest' ∧ isWS d = true) →
      (∀ j, j < pre.length →
        matchAt (pre ++ notionLabel ++ ws ++ tok ++ rest) j = false) →
      extract_notion_id g = some tok)
    ∧ (∀ (g : GTask) (s : List Char), g.notes = some s →
      ¬ notionLabel <:+: s → extract_notion_id g = none) := by
  constructor
  · intro g pre ws tok rest hnotes hws hne htok hrest hfirst
    have hs : pre ++ notionLabel ++ ws ++ tok ++ rest ≠ [] := by
      simp only [ne_eq, List.append_eq_nil]
      exact fun h => hne h.1.2
    unfold extract_notion_id
    rw [hnotes]
    show (if pre ++ notionLabel ++ ws ++ tok ++ rest = [] then none
      else extractFrom (pre ++ notionLabel ++ ws ++ tok ++ rest)) = some tok
    rw [if_neg hs,
      extractFrom_of_first_match _ pre.length
        (matchAt_decomp pre ws tok rest hws hne htok hrest) hfirst,
      tokAt_decomp pre ws tok rest hws hne htok hrest]
  · intro g s hnotes hinf
    unfold extract_notion_id
    rw [hnotes]
    show (if s = [] then none else extractFrom s) = none
    by_cases h : s = []
    · rw [if_pos h]
    · rw [if_neg h]
      apply extractFrom_of_no_match
      intro i
      by_contra hc
      rw [Bool.not_eq_false, matchAt, Bool.and_eq_true] at hc
      rcases List.isPrefixOf_iff_prefix.mp hc.1 with ⟨t, ht⟩
      exact hinf ⟨s.take i, t, by rw [List.append_assoc, ht,
        List.take_append_drop]⟩

/-- Witness for C3 at a concrete input. -/
theorem extract_notion_id_first_token_witness :
    extract_notion_id
      ⟨"task".toList, some ("see Notion ID:  abc12 tail".toList), none⟩
      = some "abc12".toList :=
  extract_notion_id_first_token.1
    ⟨"task".toList, some ("see Notion ID:  abc12 tail".toList), none⟩
    "see ".toList "  ".toList "abc12".toList " tail".toList
    (by decide) (by decide) (by decide) (by decide)
    (Or.inr ⟨' ', "tail".toList, by decide, by decide⟩)
    (by decide)

/-- Every token `extractFrom` returns is a non-empty run of non-whitespace
characters. -/
lemma extractFrom_some (s t : List Char) (h : extractFrom s = some t) :
    t ≠ [] ∧ ∀ c ∈ t, isWS c = false := by
  induction s with
  | nil => exact absurd h (by simp [extractFrom])
  | cons c rest ih =>
    rw [extractFrom_cons] at h
    by_cases hm : matchAt (c :: rest) 0 = true
    · rw [if_pos hm] at h
      have htok : tokAt (c :: rest) 0 = t := Option.some.inj h
      constructor
      · rw [matchAt, Bool.and_eq_true] at hm
        have h2 := hm.2
        rw [htok] at h2
        simpa [List.isEmpty_iff] using h2
      · intro ch hch
        rw [← htok] at hch
        have := List.mem_takeWhile_imp hch
        simpa using this
    · rw [if_neg hm] at h
      exact ih h

/-- **C9.** The extractor returns `none` on an absent and on an empty notes
field (the `if gtask.notes:` guard) instead of failing; it is a total
function of the notes value; and every identifier it returns is a non-empty
token containing no whitespace. -/
theorem extract_notion_id_safe :
    (∀ g : GTask, g.notes = none → extract_notion_id g = none)
    ∧ (∀ g : GTask, g.notes = some [] → extract_notion_id g = none)
    ∧ (∀ (g : GTask) (t : List Char), extract_notion_id g = some t →
        t ≠ [] ∧ ∀ c ∈ t, isWS c = false) := by
  refine ⟨fun g h => ?_, fun g h => ?_, fun g t h => ?_⟩
  · unfold extract_notion_id
    rw [h]
  · unfold extract_notion_id
    rw [h]
    simp
  · match hn : g.notes with
    | none => rw [extract_notion_id, hn] at h; exact absurd h (by simp)
    | some s =>
      rw [extract_notion_id, hn] at h
      have h' : (if s = [] then none else extractFrom s) = some t := h
      by_cases hs : s = []
      · rw [if_pos hs] at h'; exact absurd h' (by simp)
      · rw [if_neg hs] at h'; exact extractFrom_some s t h'

/-- Witness for C9 at concrete inputs. -/
theorem extract_notion_id_safe_witness :
    extract_notion_id ⟨"t".toList, none, none⟩ = none
    ∧ extract_notion_id ⟨"t".toList, some [], none⟩ = none
    ∧ ("x1".toList ≠ [] ∧ ∀ c ∈ "x1".toList, isWS c = false) :=
  ⟨extract_notion_id_safe.1 ⟨"t".toList, none, none⟩ rfl,
   extract_notion_id_safe.2.1 ⟨"t".toList, some [], none⟩ rfl,
   extract_notion_id_safe.2.2 ⟨"t".toList, some ("Notion ID: x1".toList), none⟩
     "x1".toList (by decide)⟩

/-- **C1.** After one call to the Status Reconciler with `notion_done`, the
task's done-ness (completion timestamp present) equals `notion_done`, for
every prior state. -/
theorem update_google_task_status_aligns (g : GTask) (d : Bool) :
    (update_google_task_status g d).1.completed.isSome = d := by
  unfold update_google_task_status
  cases d <;> cases hg : g.completed <;> simp [hg]

/-- **C2, counterexample to the claim as stated.** With `sourceDone` and
`targetDone` both `false` (already equal), the Reconciler still issues the
trailing `gtask.update()` call — the persistence of the task's state to the
target service (spec §4.2's "persist the TargetTask's updated state") — so
it is not the case that no persistence call is made when the two states
already agree. -/
theorem update_google_task_status_update_on_equal :
    GCall.update ∈
      (update_google_task_status ⟨"t".toList, none, none⟩ false).2 := by
  decide

/-- **C2 as amended.** The state-changing commands `mark_completed` /
`mark_incomplete` are issued iff `sourceDone` differs from the task's
done-ness; the `gtask.update()` persistence call is issued on every
invocation, even when the two already agree. -/
theorem update_google_task_status_calls (g : GTask) (d : Bool) :
    ((GCall.markCompleted ∈ (update_google_task_status g d).2
        ∨ GCall.markIncomplete ∈ (update_google_task_status g d).2)
      ↔ d ≠ g.completed.isSome)
    ∧ GCall.update ∈ (update_google_task_status g d).2 := by
  unfold update_google_task_status
  cases d <;> cases hg : g.completed <;> simp [hg]

/-- **C10.** The Status Reconciler changes no field of the task other than
its completion state: title and notes (hence the embedded back-reference)
are left unchanged. -/
theorem update_google_task_status_frame (g : GTask) (d : Bool) :
    (update_google_task_status g d).1.title = g.title
    ∧ (update_google_task_status g d).1.notes = g.notes := by
  unfold update_google_task_status
  cases d <;> cases hg : g.completed <;> simp [hg]

/-- **C4.** The selection predicate holds on a record iff its status equals
`"Organized"`, its `For Later` flag is false and its `Dump It` flag is false
— the conjunction of the three conditions. -/
theorem combined_filter_spec (r : SourceRecord) :
    combined_filter r = true ↔
      r.status = "Organized".toList ∧ r.forLater = false ∧ r.dumpIt = false := by
  simp [combined_filter, status_filter, for_later_filter, dump_it_filter,
    and_assoc]

/-- **C5.** When the source collection is empty / cannot be loaded, the
Orchestrator prints exactly the specific message and returns normally
(`Except.ok`, not an error), with the task list unchanged and zero tasks
created. -/
theorem sync_empty_db_noop (db : NotionDB) (tasks : List GTask)
    (h : db.isEmpty = true) :
    sync_inbox_to_gtasks db tasks = Except.ok (tasks, 0, [couldNotLoadMsg]) := by
  unfold sync_inbox_to_gtasks
  rw [h]
  rfl

/-- Witness for C5 at a concrete input. -/
theorem sync_empty_db_noop_witness :
    sync_inbox_to_gtasks ⟨true, [], []⟩ [⟨"t".toList, none, none⟩]
      = Except.ok ([⟨"t".toList, none, none⟩], 0, [couldNotLoadMsg]) :=
  sync_empty_db_noop ⟨true, [], []⟩ [⟨"t".toList, none, none⟩] rfl

/-- **C8.** The scheduling loop never terminates because of an exception
raised by an invocation: for every outcome stream and every `n` the trace
extends by one full iteration (the loop reaches iteration `n` whatever the
earlier outcomes were, including errors), every iteration invokes the
Orchestrator and then sleeps exactly the fixed 60 time units — no backoff
and no retry ceiling, the sleep being independent of the iteration index and
of the outcome — and an iteration whose invocation raises logs the error
rather than propagating it: its event list is exactly invoke, log, sleep. -/
theorem loop_runs_forever (outcomes : Nat → Except (List Char) Unit)
    (n : Nat) (e : List Char) :
    loopEvents outcomes (n + 1)
        = loopEvents outcomes n ++ loopIteration (outcomes n)
    ∧ LoopEvent.invokeSync ∈ loopIteration (outcomes n)
    ∧ LoopEvent.sleep 60 ∈ loopIteration (outcomes n)
    ∧ loopIteration (Except.error e)
        = [LoopEvent.invokeSync, LoopEvent.logError e, LoopEvent.sleep 60]
    ∧ loopIteration (Except.ok ())
        = [LoopEvent.invokeSync, LoopEvent.sleep 60] := by
  refine ⟨rfl, by simp [loopIteration], ?_, rfl, rfl⟩
  cases h : outcomes n with
  | error e' => simp [loopIteration, h, SYNC_INTERVAL]
  | ok u => simp [loopIteration, h, SYNC_INTERVAL]

/-- The Reconciler does not touch the notes field, so the back-reference a
task carries is invariant under it. -/
lemma extract_update (t : GTask) (d : Bool) :
    extract_notion_id (update_google_task_status t d).1 = extract_notion_id t := by
  unfold extract_notion_id update_google_task_status
  cases d <;> cases hg : t.completed <;> simp [hg]

lemma hasNotionId_update (t : GTask) (d : Bool) (j : List Char) :
    hasNotionId (update_google_task_status t d).1 j = hasNotionId t j := by
  unfold hasNotionId
  rw [extract_update]

lemma countId_cons (t : GTask) (ts : List GTask) (j : List Char) :
    countId (t :: ts) j = (if hasNotionId t j then 1 else 0) + countId ts j := by
  unfold countId
  rw [List.filter_cons]
  by_cases h : hasNotionId t j = true
  · simp [h]
    omega
  · simp [h]

lemma countId_append (a b : List GTask) (j : List Char) :
    countId (a ++ b) j = countId a j + countId b j := by
  unfold countId
  rw [List.filter_append, List.length_append]

lemma reconcileFirst_countId (ts : List GTask) (id : List Char) (d : Bool)
    (j : List Char) :
    countId (reconcileFirst ts id d) j = countId ts j := by
  induction ts with
  | nil => rfl
  | cons t ts ih =>
    unfold reconcileFirst
    by_cases h : hasNotionId t id = true
    · rw [if_pos h, countId_cons, countId_cons, hasNotionId_update]
    · rw [if_neg h, countId_cons, countId_cons, ih]

lemma countId_pos_iff (ts : List GTask) (id : List Char) :
    0 < countId ts id ↔ ∃ t ∈ ts, hasNotionId t id = true := by
  unfold countId
  rw [List.length_pos, Ne, List.filter_eq_nil_iff]
  push_neg
  simp

lemma find?_isSome_iff (ts : List GTask) (id : List Char) :
    (ts.find? (fun t => hasNotionId t id)).isSome = true ↔ 0 < countId ts id := by
  rw [List.find?_isSome, countId_pos_iff]

/-- The back-reference notes split as the generic decomposition expects. -/
lemma mkBackRefNotes_decomp (id : List Char) :
    mkBackRefNotes id = [] ++ notionLabel ++ [' '] ++ id ++ [] := by
  show "Notion ID: ".toList ++ id = [] ++ notionLabel ++ [' '] ++ id ++ []
  rw [show "Notion ID: ".toList = notionLabel ++ [' '] by decide]
  simp

/-- A freshly created task's back-reference extracts to exactly the
record's identifier. -/
lemma extract_newTask (r : SourceRecord) (h : validId r.id) :
    extract_notion_id (newTask r) = some r.id := by
  have hne : mkBackRefNotes r.id ≠ [] := by
    simp only [mkBackRefNotes, ne_eq, List.append_eq_nil]
    intro hc
    exact absurd hc.1 (by decide)
  show (if mkBackRefNotes r.id = [] then none
    else extractFrom (mkBackRefNotes r.id)) = some r.id
  rw [if_neg hne, mkBackRefNotes_decomp,
    extractFrom_of_first_match _ ([] : List Char).length
      (matchAt_decomp [] [' '] r.id [] (by decide) h.1 h.2 (Or.inl rfl))
      (fun j hj => absurd hj (Nat.not_lt_zero j)),
    tokAt_decomp [] [' '] r.id [] (by decide) h.1 h.2 (Or.inl rfl)]

lemma hasNotionId_newTask_self (r : SourceRecord) (h : validId r.id) :
    hasNotionId (newTask r) r.id = true := by
  simp [hasNotionId, extract_newTask r h]

lemma hasNotionId_newTask_other (r : SourceRecord) (j : List Char)
    (h : validId r.id) (hj : j ≠ r.id) :
    hasNotionId (newTask r) j = false := by
  simp only [hasNotionId, extract_newTask r h, beq_eq_false_iff_ne, ne_eq,
    Option.some.injEq]
  exact fun hc => hj hc.symm

lemma processRecord_count_mono (tasks : List GTask) (r : SourceRecord)
    (j : List Char) :
    countId tasks j ≤ countId ((processRecord tasks r).1) j := by
  unfold processRecord
  by_cases h : (tasks.find? (fun t => hasNotionId t r.id)).isSome = true
  · rw [if_pos h]
    rw [show ((reconcileFirst tasks r.id r.done, 0) :
        List GTask × Nat).1 = reconcileFirst tasks r.id r.done from rfl,
      reconcileFirst_countId]
  · rw [if_neg h]
    rw [show ((tasks ++ [newTask r], 1) : List GTask × Nat).1
      = tasks ++ [newTask r] from rfl, countId_append]
    exact Nat.le_add_right _ _

lemma processRecord_count_le (tasks : List GTask) (r : SourceRecord)
    (j : List Char) (hval : validId r.id)
    (hinv : ∀ i, countId tasks i ≤ 1) :
    countId ((processRecord tasks r).1) j ≤ 1 := by
  unfold processRecord
  by_cases h : (tasks.find? (fun t => hasNotionId t r.id)).isSome = true
  · rw [if_pos h]
    rw [show ((reconcileFirst tasks r.id r.done, 0) :
        List GTask × Nat).1 = reconcileFirst tasks r.id r.done from rfl,
      reconcileFirst_countId]
    exact hinv j
  · rw [if_neg h]
    rw [show ((tasks ++ [newTask r], 1) : List GTask × Nat).1
      = tasks ++ [newTask r] from rfl, countId_append]
    have h0 : countId tasks r.id = 0 := by
      by_contra hc
      exact h ((find?_isSome_iff tasks r.id).mpr (Nat.pos_of_ne_zero hc))
    by_cases hj : j = r.id
    · subst hj
      rw [h0, countId_cons, hasNotionId_newTask_self r hval, if_pos rfl]
      simp [countId]
    · rw [countId_cons, hasNotionId_newTask_other r j hval hj]
      simpa [countId] using hinv j

lemma processRecord_count_pos (tasks : List GTask) (r : SourceRecord)
    (hval : validId r.id) :
    0 < countId ((processRecord tasks r).1) r.id := by
  unfold processRecord
  by_cases h : (tasks.find? (fun t => hasNotionId t r.id)).isSome = true
  · rw [if_pos h]
    rw [show ((reconcileFirst tasks r.id r.done, 0) :
        List GTask × Nat).1 = reconcileFirst tasks r.id r.done from rfl,
      reconcileFirst_countId]
    exact (find?_isSome_iff tasks r.id).mp h
  · rw [if_neg h]
    rw [show ((tasks ++ [newTask r], 1) : List GTask × Nat).1
      = tasks ++ [newTask r] from rfl, countId_append, countId_cons,
      hasNotionId_newTask_self r hval, if_pos rfl]
    omega

lemma processRecord_present (tasks : List GTask) (r : SourceRecord)
    (h : 0 < countId tasks r.id) :
    (processRecord tasks r).2 = 0
    ∧ ∀ j, countId ((processRecord tasks r).1) j = countId tasks j := by
  unfold processRecord
  rw [if_pos ((find?_isSome_iff tasks r.id).mpr h)]
  exact ⟨rfl, fun j => reconcileFirst_countId tasks r.id r.done j⟩

lemma processRecords_count_mono (rs : List SourceRecord) :
    ∀ (tasks : List GTask) (j : List Char),
      countId tasks j ≤ countId ((processRecords tasks rs).1) j := by
  induction rs with
  | nil => intro tasks j; exact Nat.le_refl _
  | cons r rs ih =>
    intro tasks j
    exact Nat.le_trans (processRecord_count_mono tasks r j)
      (ih (processRecord tasks r).1 j)

lemma processRecords_le (rs : List SourceRecord) :
    ∀ tasks : List GTask, (∀ r ∈ rs, validId r.id) →
      (∀ j, countId tasks j ≤ 1) →
      ∀ j, countId ((processRecords tasks rs).1) j ≤ 1 := by
  induction rs with
  | nil => intro tasks _ hinv j; exact hinv j
  | cons r rs ih =>
    intro tasks hval hinv j
    exact ih (processRecord tasks r).1
      (fun r' hr' => hval r' (List.mem_cons_of_mem r hr'))
      (fun i => processRecord_count_le tasks r i
        (hval r (List.mem_cons_self r rs)) hinv) j

lemma processRecords_hasAll (rs : List SourceRecord) :
    ∀ tasks : List GTask, (∀ r ∈ rs, validId r.id) →
      ∀ r ∈ rs, 0 < countId ((processRecords tasks rs).1) r.id := by
  induction rs with
  | nil => intro tasks _ r hr; exact absurd hr (List.not_mem_nil r)
  | cons r0 rs ih =>
    intro tasks hval r hr
    rcases List.mem_cons.mp hr with h | h
    · subst h
      exact Nat.lt_of_lt_of_le
        (processRecord_count_pos tasks r (hval r (List.mem_cons_self r rs)))
        (processRecords_count_mono rs (processRecord tasks r).1 r.id)
    · exact ih (processRecord tasks r0).1
        (fun r' hr' => hval r' (List.mem_cons_of_mem r0 hr')) r h

lemma processRecords_all_present (rs : List SourceRecord) :
    ∀ tasks : List GTask, (∀ r ∈ rs, 0 < countId tasks r.id) →
      (processRecords tasks rs).2 = 0 := by
  induction rs with
  | nil => intro tasks _; rfl
  | cons r rs ih =>
    intro tasks h
    have h0 := processRecord_present tasks r (h r (List.mem_cons_self r rs))
    show (processRecord tasks r).2
      + (processRecords (processRecord tasks r).1 rs).2 = 0
    rw [h0.1, ih (processRecord tasks r).1
      (fun r' hr' => by
        rw [h0.2 r'.id]
        exact h r' (List.mem_cons_of_mem r hr'))]

/-- The Orchestrator's observable effect depends only on the database: it is
either a no-op on the task list (the empty-database return and the two
modelled error paths), or exactly the processing of the filtered records. -/
lemma syncTasks_spec (db : NotionDB) :
    (∀ tasks, syncTasks db tasks = tasks ∧ syncCreated db tasks = 0)
    ∨ (∀ tasks,
        syncTasks db tasks
          = (processRecords tasks (db.records.filter combined_filter)).1
        ∧ syncCreated db tasks
          = (processRecords tasks (db.records.filter combined_filter)).2) := by
  by_cases h1 : db.isEmpty = true
  · left
    intro tasks
    constructor <;> simp [syncTasks, syncCreated, sync_inbox_to_gtasks, h1]
  · rw [Bool.not_eq_true] at h1
    by_cases h2 : "Organized".toList ∈ db.statusOptions
    · by_cases h3 : "Done".toList ∈ db.statusOptions
      · by_cases h4 : "Backlog".toList ∈ db.statusOptions
        · right
          intro tasks
          unfold syncTasks syncCreated sync_inbox_to_gtasks
          rw [h1]
          rw [if_neg (by simp), if_neg (not_not_intro h2),
            if_neg (by push_neg; exact ⟨h3, h4⟩)]
          exact ⟨rfl, rfl⟩
        · left
          intro tasks
          unfold syncTasks syncCreated sync_inbox_to_gtasks
          rw [h1]
          rw [if_neg (by simp), if_neg (not_not_intro h2),
            if_pos (Or.inr h4)]
          exact ⟨rfl, rfl⟩
      · left
        intro tasks
        unfold syncTasks syncCreated sync_inbox_to_gtasks
        rw [h1]
        rw [if_neg (by simp), if_neg (not_not_intro h2), if_pos (Or.inl h3)]
        exact ⟨rfl, rfl⟩
    · left
      intro tasks
      unfold syncTasks syncCreated sync_inbox_to_gtasks
      rw [h1]
      rw [if_neg (by simp), if_pos h2]
      exact ⟨rfl, rfl⟩

lemma reconcileFirst_append (pre : List GTask) (t : GTask) (post : List GTask)
    (id : List Char) (d : Bool)
    (hpre : ∀ u ∈ pre, hasNotionId u id = false)
    (ht : hasNotionId t id = true) :
    reconcileFirst (pre ++ t :: post) id d
      = pre ++ (update_google_task_status t d).1 :: post := by
  induction pre with
  | nil =>
    show reconcileFirst (t :: post) id d = _
    unfold reconcileFirst
    rw [if_pos ht]
    rfl
  | cons u us ih =>
    have hu : hasNotionId u id = false := hpre u (List.mem_cons_self u us)
    show reconcileFirst (u :: (us ++ t :: post)) id d = _
    unfold reconcileFirst
    rw [if_neg (by simp [hu]), ih (fun v hv => hpre v (List.mem_cons_of_mem u hv))]
    rfl

/-- **C6.** The per-record decision: when no existing task carries the
record's identifier as a back-reference, exactly one new task is created,
appended to the list, and it carries the back-reference annotation; when
some task does carry it, the first such task is located and replaced by the
result of invoking the Status Reconciler on it with the record's "Done!"
boolean, all other tasks untouched and nothing created. -/
theorem processRecord_create_or_reconcile (tasks : List GTask)
    (r : SourceRecord) (hid : validId r.id) :
    ((∀ t ∈ tasks, extract_notion_id t ≠ some r.id) →
      processRecord tasks r = (tasks ++ [newTask r], 1)
        ∧ extract_notion_id (newTask r) = some r.id)
    ∧ (∀ pre t post, tasks = pre ++ t :: post →
        (∀ u ∈ pre, extract_notion_id u ≠ some r.id) →
        extract_notion_id t = some r.id →
        processRecord tasks r
          = (pre ++ (update_google_task_status t r.done).1 :: post, 0)) := by
  constructor
  · intro hnone
    refine ⟨?_, extract_newTask r hid⟩
    have hfind : tasks.find? (fun t => hasNotionId t r.id) = none :=
      List.find?_eq_none.mpr fun t ht => by
        intro hc
        rw [hasNotionId, beq_iff_eq] at hc
        exact hnone t ht hc
    unfold processRecord
    rw [hfind]
    rfl
  · intro pre t post hdecomp hpre ht
    subst hdecomp
    have htb : hasNotionId t r.id = true := by simp [hasNotionId, ht]
    have hpreb : ∀ u ∈ pre, hasNotionId u r.id = false := fun u hu => by
      simp only [hasNotionId, beq_eq_false_iff_ne, ne_eq]
      exact hpre u hu
    have hfind :
        ((pre ++ t :: post).find? (fun u => hasNotionId u r.id)).isSome = true := by
      rw [List.find?_isSome]
      exact ⟨t, by simp, htb⟩
    unfold processRecord
    rw [if_pos hfind, reconcileFirst_append pre t post r.id r.done hpreb htb]

/-- Witness for C6 at a concrete input: an empty task list forces the
creation branch. -/
theorem processRecord_create_or_reconcile_witness :
    processRecord []
        ⟨"T".toList, "Organized".toList, false, false, false, none,
          "abc123".toList⟩
      = ([newTask ⟨"T".toList, "Organized".toList, false, false, false, none,
          "abc123".toList⟩], 1)
    ∧ extract_notion_id (newTask ⟨"T".toList, "Organized".toList, false, false,
        false, none, "abc123".toList⟩) = some "abc123".toList := by
  have h := (processRecord_create_or_reconcile []
    ⟨"T".toList, "Organized".toList, false, false, false, none,
      "abc123".toList⟩ (by decide)).1
    (fun t ht => absurd ht (List.not_mem_nil t))
  simpa using h

/-- **C7.** With the back-reference index correctly populated (every
filtered record's identifier is non-empty and whitespace-free, so its
back-reference round-trips through the extractor), running the Orchestrator
twice in succession over an unchanged source collection creates zero new
tasks on the second run, and the invariant that at most one task carries
any given identifier is preserved through both runs. -/
theorem sync_twice_no_new_tasks (db : NotionDB) (tasks : List GTask)
    (hids : ∀ r ∈ db.records.filter combined_filter, validId r.id)
    (hinv : ∀ j, countId tasks j ≤ 1) :
    syncCreated db (syncTasks db tasks) = 0
    ∧ ∀ j, countId (syncTasks db (syncTasks db tasks)) j ≤ 1 := by
  rcases syncTasks_spec db with h | h
  · rw [(h tasks).1]
    refine ⟨(h tasks).2, fun j => ?_⟩
    rw [(h tasks).1]
    exact hinv j
  · rw [(h tasks).1]
    constructor
    · rw [(h _).2]
      exact processRecords_all_present _ _
        (processRecords_hasAll _ tasks hids)
    · intro j
      rw [(h _).1]
      exact processRecords_le _ _ hids
        (processRecords_le _ tasks hids hinv) j

/-- Witness for C7 at a concrete input: one filtered record, empty initial
task list. -/
theorem sync_twice_no_new_tasks_witness :
    syncCreated
        ⟨false, ["Organized".toList, "Done".toList, "Backlog".toList],
          [⟨"T".toList, "Organized".toList, false, false, false, none,
            "abc123".toList⟩]⟩
        (syncTasks
          ⟨false, ["Organized".toList, "Done".toList, "Backlog".toList],
            [⟨"T".toList, "Organized".toList, false, false, false, none,
              "abc123".toList⟩]⟩ []) = 0
    ∧ countId
        (syncTasks
          ⟨false, ["Organized".toList, "Done".toList, "Backlog".toList],
            [⟨"T".toList, "Organized".toList, false, false, false, none,
              "abc123".toList⟩]⟩
          (syncTasks
            ⟨false, ["Organized".toList, "Done".toList, "Backlog".toList],
              [⟨"T".toList, "Organized".toList, false, false, false, none,
                "abc123".toList⟩]⟩ [])) "abc123".toList ≤ 1 := by
  have h := sync_twice_no_new_tasks
    ⟨false, ["Organized".toList, "Done".toList, "Backlog".toList],
      [⟨"T".toList, "Organized".toList, false, false, false, none,
        "abc123".toList⟩]⟩ [] (by decide) (fun _ => Nat.zero_le 1)
  exact ⟨h.1, h.2 "abc123".toList⟩

end Syncer
